import Mathlib

/-!
Shallow embedding of the Search-Guy repository (chat-transcript chunker,
embedding index builder, query engine, context expander).

Sources embedded:
* `chunk.py` — `parse_timestamp`, the per-line parsing loop of
  `chunk_lines_to_json`, and `group_messages_by_time`;
* `create_vectors.py` — `create_vectors`;
* `search_vectors.py` / `app.py` — `search_vectors` (the two copies are
  textually identical in the modelled region) and the raw-file context
  window of `get_context` / `get_surrounding_messages`.

Modelling conventions:
* Python `str` is Lean `String`; `None`-able fields are `Option`.
* Python `datetime` values are the `DateTime` structure below; `datetime`
  comparison and subtraction are modelled through `DateTime.toSec`
  (seconds since 0001-01-01 on the proleptic Gregorian calendar), which
  is exactly the Python ordering/difference on valid datetimes.
  `total_seconds()/60 <= w` is modelled as `|Δ seconds| ≤ 60*w` over ℤ:
  the float division is exactly decidable at these magnitudes because the
  gap `1/60` exceeds the rounding error of an IEEE double below 2^53.
* Embedding vectors and similarity scores use `ℚ` (the numeric library is
  an external collaborator; only ordering/filtering of scores matters).
* `numpy.argsort` followed by `[::-1]` is modelled as a deterministic
  stable ascending sort of the index list followed by `List.reverse`
  (numpy's stable kind; the default quicksort kind leaves tie order
  unspecified, and the reversal is the same either way).
* Python's stable `list.sort(key=...)` and the model's stable insertion
  sort agree on every input, `List.insertionSort` being stable.
-/

namespace SearchGuy

/-! ### Python string helpers (`str.strip`, `str.rstrip`) -/

/-- Whitespace characters stripped by Python `str.strip()` (ASCII part;
transcript lines contain no exotic Unicode whitespace). -/
def isPySpace (c : Char) : Bool :=
  c = ' ' || c = '\t' || c = '\n' || c = '\r' || c = '\x0b' || c = '\x0c'

/-- Python `line.strip()`. -/
def pyStrip (s : String) : String :=
  String.mk (((s.toList.dropWhile isPySpace).reverse.dropWhile isPySpace).reverse)

/-- Python `line.rstrip()`. -/
def pyRstrip (s : String) : String :=
  String.mk ((s.toList.reverse.dropWhile isPySpace).reverse)

/-! ### Datetimes (`datetime.datetime`, proleptic Gregorian calendar) -/

/-- A parsed calendar timestamp, one field per `strptime` directive of the
format `%Y-%m-%d %H:%M:%S UTC` used by `chunk.parse_timestamp`. -/
structure DateTime where
  year : ℕ
  month : ℕ
  day : ℕ
  hour : ℕ
  minute : ℕ
  second : ℕ
deriving DecidableEq, Repr

def isLeapYear (y : ℕ) : Bool :=
  y % 4 == 0 && (y % 100 != 0 || y % 400 == 0)

/-- Length of month `m` (1-based) in a (non-)leap year. -/
def monthLen (leap : Bool) (m : ℕ) : ℕ :=
  match m with
  | 1 => 31 | 2 => if leap then 29 else 28 | 3 => 31 | 4 => 30
  | 5 => 31 | 6 => 30 | 7 => 31 | 8 => 31
  | 9 => 30 | 10 => 31 | 11 => 30 | 12 => 31
  | _ => 0

/-- Days in the year strictly before month `m` (1-based). -/
def cumDays (leap : Bool) (m : ℕ) : ℕ :=
  (if 2 < m ∧ leap = true then 1 else 0) +
  match m with
  | 1 => 0 | 2 => 31 | 3 => 59 | 4 => 90
  | 5 => 120 | 6 => 151 | 7 => 181 | 8 => 212
  | 9 => 243 | 10 => 273 | 11 => 304 | 12 => 334
  | _ => 365

def daysInMonth (y m : ℕ) : ℕ := monthLen (isLeapYear y) m

/-- The field ranges accepted by `datetime.strptime` on format
`%Y-%m-%d %H:%M:%S UTC` followed by `datetime` construction: the year is
between 1 and 9999 (four captured digits, `datetime.MINYEAR = 1`), the
month 1–12, the day 1 up to the month's length, and the time fields in
their clock ranges. -/
def DateTime.Valid (d : DateTime) : Prop :=
  1 ≤ d.year ∧ d.year ≤ 9999 ∧ 1 ≤ d.month ∧ d.month ≤ 12 ∧
  1 ≤ d.day ∧ d.day ≤ daysInMonth d.year d.month ∧
  d.hour ≤ 23 ∧ d.minute ≤ 59 ∧ d.second ≤ 59

instance (d : DateTime) : Decidable d.Valid :=
  inferInstanceAs (Decidable (1 ≤ d.year ∧ d.year ≤ 9999 ∧ 1 ≤ d.month ∧
    d.month ≤ 12 ∧ 1 ≤ d.day ∧ d.day ≤ daysInMonth d.year d.month ∧
    d.hour ≤ 23 ∧ d.minute ≤ 59 ∧ d.second ≤ 59))

/-- Proleptic-Gregorian day number of the date (0 for 0001-01-01), as in
`datetime.date.toordinal` minus one. -/
def DateTime.toOrdinal (d : DateTime) : ℕ :=
  (d.year - 1) * 365 + (d.year - 1) / 4 - (d.year - 1) / 100 + (d.year - 1) / 400
    + cumDays (isLeapYear d.year) d.month + (d.day - 1)

/-- Seconds since 0001-01-01 00:00:00; `datetime` comparison and
subtraction on valid datetimes coincide with comparison and subtraction
of this value. -/
def DateTime.toSec (d : DateTime) : ℕ :=
  d.toOrdinal * 86400 + d.hour * 3600 + d.minute * 60 + d.second

/-- `datetime.max` (9999-12-31 23:59:59.999999), the sentinel used by the
chunker's sort key for messages with no timestamp. -/
def dtMax : DateTime := ⟨9999, 12, 31, 23, 59, 59⟩

/-- Sort-key value of an optional timestamp, in microseconds, mirroring
`sort_key` in `group_messages_by_time`: `None` maps to `datetime.max`,
whose trailing 999999 microseconds put it weakly above every parseable
(whole-second) timestamp. -/
def tsKey : Option DateTime → ℕ
  | some d => d.toSec * 1000000
  | none => dtMax.toSec * 1000000 + 999999

/-! ### The transcript line parser (`chunk_lines_to_json`, lines 124–156) -/

/-- One parsed transcript message (the dict built by
`chunk_lines_to_json`). -/
structure Message where
  line_number : ℕ
  timestamp : Option DateTime
  username : Option String
  content : String
  source_file : String
deriving DecidableEq, Repr

/-- The raw capture of the regex timestamp group
`(\d-digit run fields of YYYY-MM-DD HH:MM:SS UTC)`. -/
structure TsRaw where
  y : ℕ
  mo : ℕ
  d : ℕ
  h : ℕ
  mi : ℕ
  s : ℕ
deriving DecidableEq, Repr

/-- Consume exactly `k` digit characters, accumulating their value. -/
def readDigits : ℕ → ℕ → List Char → Option (ℕ × List Char)
  | 0, acc, cs => some (acc, cs)
  | k + 1, acc, c :: cs =>
    if c.isDigit then readDigits k (acc * 10 + (c.toNat - 48)) cs else none
  | _ + 1, _, [] => none

/-- Consume an exact literal character sequence. -/
def expectChars (pat : List Char) (cs : List Char) : Option (List Char) :=
  if pat.isPrefixOf cs then some (cs.drop pat.length) else none

/-- Split at the first occurrence of the separator that terminates the lazy
username group in the regex: the shortest match followed by the three
characters right-bracket, colon, space. -/
def splitOnSep : List Char → Option (List Char × List Char)
  | [] => none
  | c :: cs =>
    if [']', ':', ' '].isPrefixOf (c :: cs) then some ([], cs.drop 2)
    else
      match splitOnSep cs with
      | some (u, rest) => some (c :: u, rest)
      | none => none

/-- Anchored match of the regex used in `chunk_lines_to_json`: a literal
left bracket, the bracketed `YYYY-MM-DD HH:MM:SS UTC` digit pattern, a
space, a bracketed lazily-matched username, the separator, and the rest of
the line as content (`(.*)`). -/
def matchTimestampPattern (line : String) : Option (TsRaw × String × String) :=
  match line.toList with
  | '[' :: cs => do
    let (y, cs) ← readDigits 4 0 cs
    let cs ← expectChars ['-'] cs
    let (mo, cs) ← readDigits 2 0 cs
    let cs ← expectChars ['-'] cs
    let (d, cs) ← readDigits 2 0 cs
    let cs ← expectChars [' '] cs
    let (h, cs) ← readDigits 2 0 cs
    let cs ← expectChars [':'] cs
    let (mi, cs) ← readDigits 2 0 cs
    let cs ← expectChars [':'] cs
    let (s, cs) ← readDigits 2 0 cs
    let cs ← expectChars " UTC] [".toList cs
    let (u, rest) ← splitOnSep cs
    some (⟨y, mo, d, h, mi, s⟩, String.mk u, String.mk rest)
  | _ => none

/-- `chunk.parse_timestamp` composed with the `strptime` validity checks:
yields the datetime when the captured fields form a valid calendar
date/time, and `none` (Python: `ValueError`) otherwise. The upper year
bound is automatic for a four-digit capture. -/
def parse_timestamp (r : TsRaw) : Option DateTime :=
  if (⟨r.y, r.mo, r.d, r.h, r.mi, r.s⟩ : DateTime).Valid then
    some ⟨r.y, r.mo, r.d, r.h, r.mi, r.s⟩
  else none

/-- The body of the per-line loop of `chunk_lines_to_json` (lines
124–156): strip the line; skip it when blank; on a regex match, parse the
timestamp and either emit the timestamped message or — on a `ValueError`
— print a warning and emit nothing; on no match, emit the stripped line
as a standalone untimestamped message. -/
def parseLine (src : String) (line_num : ℕ) (raw : String) : Option Message :=
  let line := pyStrip raw
  if line = "" then none
  else
    match matchTimestampPattern line with
    | some (ts, user, content) =>
      match parse_timestamp ts with
      | some t => some ⟨line_num, some t, some user, content, src⟩
      | none => none
    | none => some ⟨line_num, none, none, line, src⟩

/-- The whole parsing loop of `chunk_lines_to_json` over a file's lines
(1-based physical line numbers, blank lines counted). -/
def chunkFileMessages (src : String) (lines : List String) : List Message :=
  (List.range lines.length).filterMap fun i => parseLine src (i + 1) (lines.getD i "")

/-! ### The chunker (`group_messages_by_time`) -/

/-- One time group (the dict appended to `grouped_messages`). -/
structure Segment where
  timestamp : Option DateTime
  messages : List Message
  source_file : String
deriving DecidableEq, Repr

/-- The Python sort key `(timestamp or datetime.max, line_number)`;
`message.get('line_number', 0)` always finds the key on parser-built
messages. -/
def sortKey (m : Message) : ℕ × ℕ := (tsKey m.timestamp, m.line_number)

/-- Lexicographic comparison of sort keys, i.e. Python tuple `<=`. -/
def pairLexLe (p q : ℕ × ℕ) : Prop :=
  p.1 < q.1 ∨ (p.1 = q.1 ∧ p.2 ≤ q.2)

instance : DecidableRel pairLexLe := fun p q =>
  inferInstanceAs (Decidable (p.1 < q.1 ∨ (p.1 = q.1 ∧ p.2 ≤ q.2)))

/-- Message comparison under the Python sort key. -/
def msgLe (a b : Message) : Prop := pairLexLe (sortKey a) (sortKey b)

instance : DecidableRel msgLe := fun a b =>
  inferInstanceAs (Decidable (pairLexLe (sortKey a) (sortKey b)))

instance : IsTotal Message msgLe :=
  ⟨fun a b => by unfold msgLe pairLexLe; omega⟩

instance : IsTrans Message msgLe :=
  ⟨fun a b c => by unfold msgLe pairLexLe; omega⟩

/-- `messages.sort(key=sort_key)`: a stable sort by the key; modelled by
the stable `List.insertionSort` (Python's timsort is likewise stable, and
two stable sorts under the same total preorder agree). -/
def sortMsgs (msgs : List Message) : List Message :=
  List.insertionSort msgLe msgs

/-- `abs((message_timestamp - current_timestamp).total_seconds() / 60)
<= time_window_minutes`, decided exactly over the integers (see the file
header for why the float division is exact here). -/
def timeDiffOk (t ct : DateTime) (w : ℕ) : Bool :=
  decide (((t.toSec : ℤ) - (ct.toSec : ℤ)).natAbs ≤ 60 * w)

/-- The grouping loop of `group_messages_by_time` (lines 47–103): state is
the remaining messages, the current group and the current (anchor)
timestamp; `current_group` is never empty, so the `if current_group:`
guards of the source are always taken. -/
def groupGo (src : String) (w : ℕ) :
    List Message → List Message → Option DateTime → List Segment
  | [], cur, curTs => [⟨curTs, cur, src⟩]
  | m :: rest, cur, curTs =>
    match m.timestamp with
    | none => ⟨curTs, cur, src⟩ :: groupGo src w rest [m] none
    | some t =>
      match curTs with
      | none => ⟨curTs, cur, src⟩ :: groupGo src w rest [m] (some t)
      | some ct =>
        if timeDiffOk t ct w then groupGo src w rest (cur ++ [m]) (some ct)
        else ⟨some ct, cur, src⟩ :: groupGo src w rest [m] (some t)

/-- `group_messages_by_time(messages, time_window_minutes)`: sort by the
key, then run the grouping loop seeded with the first sorted message;
every emitted group carries `messages[0]['source_file']` of the sorted
list. -/
def group_messages_by_time (msgs : List Message) (w : ℕ) : List Segment :=
  match sortMsgs msgs with
  | [] => []
  | m :: rest => groupGo m.source_file w rest [m] m.timestamp

/-- Relation between consecutive emitted groups: whenever the earlier
group has a timestamped anchor and the later group opens with a
timestamped message, that message's elapsed time from the earlier anchor
exceeds the window — i.e. a message only starts a new group by being out
of window (or by an absent timestamp on either side). -/
def newGroupRel (w : ℕ) (s1 s2 : Segment) : Prop :=
  ∀ t, s1.timestamp = some t → ∀ m, s2.messages.head? = some m →
    ∀ u, m.timestamp = some u → 60 * w < ((u.toSec : ℤ) - (t.toSec : ℤ)).natAbs

/-! ### The index builder (`create_vectors.py`) -/

/-- Discord provenance identifiers (`discord_info`). -/
structure DiscordInfo where
  guild_id : String
  channel_id : String
  message_id : String
deriving DecidableEq, Repr

/-- A message dict as read back from a chunked JSON file and consumed by
`create_vectors` (every field is read with `.get`, hence optional; the
persisted timestamp is its string serialization). -/
structure ChunkMsg where
  line_number : Option ℕ
  timestamp : Option String
  username : Option String
  content : Option String
  source_file : Option String
  discord_info : Option DiscordInfo
deriving DecidableEq, Repr

/-- `msg.get('content', '')`. -/
def getContent (m : ChunkMsg) : String := m.content.getD ""

/-- The `metadata_entry` dict built by `create_vectors` for a surviving
message: its provenance fields, the original message, and `discord_info`
when present. -/
structure MetadataEntry where
  line_number : Option ℕ
  timestamp : Option String
  username : Option String
  source_file : Option String
  original_message : ChunkMsg
  discord_info : Option DiscordInfo
deriving DecidableEq, Repr

def mkMetadataEntry (m : ChunkMsg) : MetadataEntry :=
  ⟨m.line_number, m.timestamp, m.username, m.source_file, m, m.discord_info⟩

/-- Default values used only to totalize `List.getD` lookups. -/
def cmDefault : ChunkMsg := ⟨none, none, none, none, none, none⟩

def mdDefault : MetadataEntry := mkMetadataEntry cmDefault

/-- The messages that pass the `if content:` truthiness test of the
extraction loop in `create_vectors` (lines 68–82): those whose `content`
is present and non-empty. -/
def survivingMessages (msgs : List ChunkMsg) : List ChunkMsg :=
  msgs.filter fun m => getContent m ≠ ""

/-- `message_contents` accumulated by the extraction loop. -/
def message_contents (msgs : List ChunkMsg) : List String :=
  (survivingMessages msgs).map getContent

/-- `message_metadata` accumulated by the extraction loop (same pass, same
condition as `message_contents`). -/
def message_metadata (msgs : List ChunkMsg) : List MetadataEntry :=
  (survivingMessages msgs).map mkMetadataEntry

/-- An embedding vector (row of `model.encode`'s output). -/
abbrev Vec := List ℚ

/-- The pickled `vector_database` dict (the `model` entry is the external
embedding collaborator and is not part of the data model). -/
structure VectorDatabase where
  model_name : String
  embeddings : List Vec
  message_metadata : List MetadataEntry

/-- `create_vectors(messages, model_name, output_path)` (lines 47–106).
The embedding backend `model.encode` is the external collaborator,
modelled as a fallible batch function `embedB`; a raised exception is the
`Except.error` branch and propagates out of the build. When
`message_contents` is empty, `encode` is not invoked and the embeddings
array is empty. -/
def create_vectors (embedB : List String → Except String (List Vec))
    (model_name : String) (msgs : List ChunkMsg) : Except String VectorDatabase :=
  match message_contents msgs with
  | [] => .ok ⟨model_name, [], message_metadata msgs⟩
  | c :: cs =>
    match embedB (c :: cs) with
    | .ok embs => .ok ⟨model_name, embs, message_metadata msgs⟩
    | .error e => .error e

/-- The pickle files written by `create_vectors`: the `pickle.dump` sits
after the `model.encode` call in straight-line code, so a database is
persisted exactly when the build reaches its end normally. -/
def persisted_databases (embedB : List String → Except String (List Vec))
    (model_name : String) (msgs : List ChunkMsg) : List VectorDatabase :=
  match create_vectors embedB model_name msgs with
  | .ok db => [db]
  | .error _ => []

/-! ### The query engine (`search_vectors`, identical in
`search_vectors.py` and `app.py`) -/

/-- One entry of the returned `results` list. -/
structure SearchResult where
  score : ℚ
  metadata : MetadataEntry
  content : String
deriving DecidableEq, Repr

/-- Ascending comparison of candidate indices by `(similarity, index)`;
the index component makes the order total and deterministic, matching
numpy's stable sort kind (the default quicksort kind leaves the order of
equal similarities unspecified). -/
def idxLe (sims : List ℚ) (i j : ℕ) : Prop :=
  sims.getD i 0 < sims.getD j 0 ∨ (sims.getD i 0 = sims.getD j 0 ∧ i ≤ j)

instance (sims : List ℚ) : DecidableRel (idxLe sims) := fun i j =>
  inferInstanceAs (Decidable (sims.getD i 0 < sims.getD j 0 ∨
    (sims.getD i 0 = sims.getD j 0 ∧ i ≤ j)))

instance (sims : List ℚ) : IsTotal ℕ (idxLe sims) :=
  ⟨fun i j => by
    unfold idxLe
    rcases lt_trichotomy (sims.getD i 0) (sims.getD j 0) with h | h | h
    · exact Or.inl (Or.inl h)
    · rcases Nat.le_total i j with hij | hij
      · exact Or.inl (Or.inr ⟨h, hij⟩)
      · exact Or.inr (Or.inr ⟨h.symm, hij⟩)
    · exact Or.inr (Or.inl h)⟩

instance (sims : List ℚ) : IsTrans ℕ (idxLe sims) :=
  ⟨fun i j k hij hjk => by
    unfold idxLe at *
    rcases hij with h1 | ⟨h1, h1'⟩ <;> rcases hjk with h2 | ⟨h2, h2'⟩
    · exact Or.inl (h1.trans h2)
    · exact Or.inl (h2 ▸ h1)
    · exact Or.inl (h1 ▸ h2)
    · exact Or.inr ⟨h1.trans h2, h1'.trans h2'⟩⟩

/-- `np.argsort(similarities)`: the candidate indices sorted ascending by
similarity. -/
def argsort (sims : List ℚ) : List ℕ :=
  List.insertionSort (idxLe sims) (List.range sims.length)

/-- `np.argsort(similarities)[::-1][:top_k]`. -/
def top_indices (sims : List ℚ) (top_k : ℕ) : List ℕ :=
  ((argsort sims).reverse).take top_k

/-- The result entry built for index `idx`; `content` is
`metadata[idx]['original_message']['content']` (always present for
indexed entries, which survived the builder's content filter). -/
def mkResult (sims : List ℚ) (metadata : List MetadataEntry) (idx : ℕ) : SearchResult :=
  ⟨sims.getD idx 0, metadata.getD idx mdDefault,
    getContent (metadata.getD idx mdDefault).original_message⟩

/-- `search_vectors(query, vector_database, top_k)` (lines 28–69 of
`search_vectors.py`, 38–83 of `app.py`), from the similarity row on: the
query embedding and the cosine-similarity row against the index are
computed by the external numeric collaborators and enter the model as
`sims` (one similarity per index row). An empty index short-circuits to
`[]`; otherwise the reversed argsort is truncated to `top_k` and every
surviving index with similarity `> 0` yields a result. -/
def search_vectors (sims : List ℚ) (metadata : List MetadataEntry)
    (top_k : ℕ) : List SearchResult :=
  if sims.length = 0 then []
  else
    (top_indices sims top_k).filterMap fun idx =>
      if 0 < sims.getD idx 0 then some (mkResult sims metadata idx) else none

/-! ### The context expander (`app.get_context` lines 159–182;
`search_vectors.get_surrounding_messages` computes the same window) -/

/-- One entry of the returned `context` list. -/
structure ContextEntry where
  line_number : ℤ
  content : String
  is_target : Bool
deriving DecidableEq, Repr

/-- The integer interval `[a, b)` as a list. -/
def intRange (a b : ℤ) : List ℤ :=
  (List.range (b - a).toNat).map fun (k : ℕ) => a + (k : ℤ)

/-- The window computation of `get_context`: with the file's lines in
memory, `start_line = max(0, line_number - context_lines - 1)` and
`end_line = min(len(lines), line_number + context_lines)` delimit the
0-based slice; each entry carries the 1-based line number, the rstripped
line, and the target flag. -/
def get_context (lines : List String) (line_number context_lines : ℤ) :
    List ContextEntry :=
  (intRange (max 0 (line_number - context_lines - 1))
      (min (lines.length : ℤ) (line_number + context_lines))).map fun i =>
    ⟨i + 1, pyRstrip (lines.getD i.toNat ""), decide (i + 1 = line_number)⟩

/-! ## Theorems -/

/-! ### Query-engine ordering helpers -/

theorem argsort_perm (sims : List ℚ) :
    (argsort sims).Perm (List.range sims.length) :=
  List.perm_insertionSort _ _

theorem argsort_pairwise (sims : List ℚ) :
    (argsort sims).Pairwise (idxLe sims) :=
  List.sorted_insertionSort _ _

theorem argsort_nodup (sims : List ℚ) : (argsort sims).Nodup :=
  (argsort_perm sims).nodup_iff.mpr (List.nodup_range _)

/-- The reversed argsort lists the candidate indices in strictly
descending `(similarity, index)` order: descending similarity, ties in
descending original index. -/
theorem argsort_reverse_pairwise (sims : List ℚ) :
    ((argsort sims).reverse).Pairwise
      (fun i j => sims.getD j 0 < sims.getD i 0 ∨
        (sims.getD i 0 = sims.getD j 0 ∧ j < i)) := by
  have h := (argsort_pairwise sims).and (argsort_nodup sims)
  have h2 : ((argsort sims).reverse).Pairwise (fun i j => idxLe sims j i ∧ j ≠ i) :=
    List.pairwise_reverse.mpr h
  refine h2.imp ?_
  rintro i j ⟨hle, hne⟩
  rcases hle with h | ⟨he, hji⟩
  · exact Or.inl h
  · exact Or.inr ⟨he.symm, lt_of_le_of_ne hji hne⟩

theorem top_indices_pairwise (sims : List ℚ) (k : ℕ) :
    (top_indices sims k).Pairwise
      (fun i j => sims.getD j 0 < sims.getD i 0 ∨
        (sims.getD i 0 = sims.getD j 0 ∧ j < i)) :=
  List.Pairwise.sublist (List.take_sublist _ _) (argsort_reverse_pairwise sims)

/-! ### Claim C2 -/

/-- Claim C2, counterexample: on the index with similarity row `[1, 1]`
(a tie), the engine returns the candidate at original index 1 before the
candidate at original index 0 — ties are broken by descending, not
ascending, original index: reversing an ascending argsort reverses its
tie order. -/
theorem C2_counterexample :
    top_indices [(1 : ℚ), 1] 10 = [1, 0]
    ∧ (search_vectors [(1 : ℚ), 1]
        [mkMetadataEntry ⟨some 1, none, none, some "m1", some "a.txt", none⟩,
         mkMetadataEntry ⟨some 2, none, none, some "m2", some "a.txt", none⟩]
        10).map (fun r => r.metadata.line_number) = [some 2, some 1] := by
  constructor <;> rfl

/-- Claim C2, amended: the engine orders all candidates by descending
similarity, but ties in similarity are broken by *descending* original
index (the reversal of a stable ascending argsort; with numpy's default
quicksort kind the tie order is not even specified), and the candidate
order is a permutation of all original indices. -/
theorem C2_theorem (sims : List ℚ) :
    ((argsort sims).reverse).Pairwise
      (fun i j => sims.getD j 0 < sims.getD i 0 ∨
        (sims.getD i 0 = sims.getD j 0 ∧ j < i))
    ∧ ((argsort sims).reverse).Perm (List.range sims.length) :=
  ⟨argsort_reverse_pairwise sims,
    (List.reverse_perm _).trans (argsort_perm sims)⟩

/-! ### Claim C6 -/

/-- Claim C6: for every similarity row, metadata list and `top_k`,
`search_vectors` returns at most `top_k` results, every returned score is
strictly positive, and the returned scores are non-increasing. -/
theorem C6_theorem (sims : List ℚ) (md : List MetadataEntry) (k : ℕ) :
    (search_vectors sims md k).length ≤ k
    ∧ (∀ r ∈ search_vectors sims md k, 0 < r.score)
    ∧ (search_vectors sims md k).Pairwise (fun a b => b.score ≤ a.score) := by
  unfold search_vectors
  split
  · simp
  · refine ⟨?_, ?_, ?_⟩
    · calc ((top_indices sims k).filterMap _).length
          ≤ (top_indices sims k).length := List.length_filterMap_le _ _
        _ ≤ k := by
            simp [top_indices]
    · intro r hr
      rcases List.mem_filterMap.mp hr with ⟨idx, _, hsome⟩
      by_cases h : 0 < sims.getD idx 0
      · rw [if_pos h] at hsome
        cases hsome
        exact h
      · rw [if_neg h] at hsome
        exact absurd hsome (by simp)
    · refine List.Pairwise.filterMap _ ?_ (top_indices_pairwise sims k)
      rintro i j hij x hx y hy
      by_cases hi : 0 < sims.getD i 0
      · by_cases hj : 0 < sims.getD j 0
        · rw [if_pos hi] at hx
          rw [if_pos hj] at hy
          cases hx
          cases hy
          show sims.getD j 0 ≤ sims.getD i 0
          rcases hij with h | ⟨h, _⟩
          · exact le_of_lt h
          · exact le_of_eq h.symm
        · rw [if_neg hj] at hy
          exact absurd hy (by simp)
      · rw [if_neg hi] at hx
        exact absurd hx (by simp)

/-- Claim C6, witness at a concrete index. -/
theorem C6_witness :
    (search_vectors [(2 : ℚ), 0, 1, 1]
      [mkMetadataEntry ⟨some 1, none, none, some "m1", some "a.txt", none⟩] 3).length ≤ 3
    ∧ (∀ r ∈ search_vectors [(2 : ℚ), 0, 1, 1]
        [mkMetadataEntry ⟨some 1, none, none, some "m1", some "a.txt", none⟩] 3, 0 < r.score)
    ∧ (search_vectors [(2 : ℚ), 0, 1, 1]
        [mkMetadataEntry ⟨some 1, none, none, some "m1", some "a.txt", none⟩] 3).Pairwise
        (fun a b => b.score ≤ a.score) :=
  C6_theorem [(2 : ℚ), 0, 1, 1]
    [mkMetadataEntry ⟨some 1, none, none, some "m1", some "a.txt", none⟩] 3

/-! ### Claim C1 -/

/-- Claim C1, counterexample: the line
`[2024-13-01 00:00:00 UTC] [bob]: hi` matches the bracketed-timestamp
grammar, its timestamp substring has no valid calendar month, and the
parser emits *no* message for it — the line is dropped (with a console
warning), not preserved as untimestamped content. -/
theorem C1_counterexample :
    matchTimestampPattern (pyStrip "[2024-13-01 00:00:00 UTC] [bob]: hi")
      = some (⟨2024, 13, 1, 0, 0, 0⟩, "bob", "hi")
    ∧ parse_timestamp ⟨2024, 13, 1, 0, 0, 0⟩ = none
    ∧ parseLine "f.txt" 1 "[2024-13-01 00:00:00 UTC] [bob]: hi" = none
    ∧ chunkFileMessages "f.txt" ["[2024-13-01 00:00:00 UTC] [bob]: hi"] = [] := by
  refine ⟨rfl, by decide, rfl, rfl⟩

/-- Claim C1, amended: a line whose (stripped) text matches the
bracketed-timestamp grammar but whose timestamp substring does not parse
as a valid calendar date/time is dropped with a warning — no Message is
emitted for it. -/
theorem C1_theorem (src : String) (n : ℕ) (raw : String) (ts : TsRaw)
    (u c : String)
    (hmatch : matchTimestampPattern (pyStrip raw) = some (ts, u, c))
    (hts : parse_timestamp ts = none) :
    parseLine src n raw = none := by
  unfold parseLine
  by_cases hb : pyStrip raw = ""
  · rw [hb] at hmatch
    have hnone : matchTimestampPattern "" = none := rfl
    rw [hnone] at hmatch
    cases hmatch
  · simp only [if_neg hb, hmatch, hts]

/-- Claim C1, amended, witness. -/
theorem C1_witness :
    parseLine "f.txt" 1 "[2024-13-01 00:00:00 UTC] [bob]: hi" = none :=
  C1_theorem "f.txt" 1 "[2024-13-01 00:00:00 UTC] [bob]: hi"
    ⟨2024, 13, 1, 0, 0, 0⟩ "bob" "hi" rfl (by decide)

/-! ### Claim C3 -/

/-- Claim C3, counterexample: the non-blank line `"  hello"` does not
match the grammar, yet the emitted Message's content is the *stripped*
line `"hello"`, not the original line text character for character. -/
theorem C3_counterexample :
    parseLine "f.txt" 1 "  hello" = some ⟨1, none, none, "hello", "f.txt"⟩
    ∧ "hello" ≠ "  hello" := by
  refine ⟨rfl, by decide⟩

/-- Claim C3, amended: for every non-blank line whose stripped text does
not match the timestamp grammar, the emitted Message has content equal to
the line with leading and trailing whitespace stripped (not the raw line
verbatim), and timestamp and author absent. -/
theorem C3_theorem (src : String) (n : ℕ) (raw : String)
    (hnb : pyStrip raw ≠ "")
    (hnm : matchTimestampPattern (pyStrip raw) = none) :
    parseLine src n raw = some ⟨n, none, none, pyStrip raw, src⟩ := by
  unfold parseLine
  simp only [if_neg hnb, hnm]

/-- Claim C3, amended, witness. -/
theorem C3_witness :
    parseLine "f.txt" 1 "  hello" = some ⟨1, none, none, pyStrip "  hello", "f.txt"⟩ :=
  C3_theorem "f.txt" 1 "  hello" (by decide) rfl

/-! ### Integer-range helpers for the context expander -/

theorem intRange_eq_cons (a b : ℤ) (h : a < b) :
    intRange a b = a :: intRange (a + 1) b := by
  unfold intRange
  have hn : (b - a).toNat = (b - (a + 1)).toNat + 1 := by omega
  rw [hn, List.range_succ_eq_map, List.map_cons, List.map_map]
  refine congrArg₂ List.cons (by simp) (List.map_congr_left fun k _ => ?_)
  show a + ((k + 1 : ℕ) : ℤ) = a + 1 + k
  push_cast
  ring

theorem mem_intRange {i a b : ℤ} : i ∈ intRange a b ↔ a ≤ i ∧ i < b := by
  unfold intRange
  simp only [List.mem_map, List.mem_range]
  constructor
  · rintro ⟨k, hk, rfl⟩
    omega
  · rintro ⟨ha, hb⟩
    exact ⟨(i - a).toNat, by omega, by omega⟩

theorem length_intRange (a b : ℤ) : (intRange a b).length = (b - a).toNat := by
  simp [intRange]

theorem intRange_map_add (a b c : ℤ) :
    (intRange a b).map (fun x => x + c) = intRange (a + c) (b + c) := by
  unfold intRange
  rw [List.map_map]
  have hd : b + c - (a + c) = b - a := by ring
  rw [hd]
  exact List.map_congr_left fun k _ => by simp [Function.comp]; ring

theorem intRange_filter_len : ∀ (n : ℕ) (a c : ℤ), a ≤ c → c < a + n →
    (intRange a (a + n)).filter (fun i => decide (i = c)) = [c]
  | 0, a, c, h1, h2 => absurd (h1.trans_lt h2) (by omega)
  | n + 1, a, c, h1, h2 => by
    rw [intRange_eq_cons a (a + (n + 1 : ℕ)) (by omega), List.filter_cons]
    by_cases hac : a = c
    · subst hac
      rw [if_pos (by simp)]
      have hnil : (intRange (a + 1) (a + (n + 1 : ℕ))).filter
          (fun i => decide (i = a)) = [] := by
        refine List.filter_eq_nil_iff.mpr fun i hi => ?_
        have := mem_intRange.mp hi
        simp only [decide_eq_true_eq]
        omega
      rw [hnil]
    · rw [if_neg (by simp [hac])]
      have he : a + (n + 1 : ℕ) = (a + 1) + (n : ℕ) := by push_cast; ring
      rw [he]
      exact intRange_filter_len n (a + 1) c (by omega) (by omega)

theorem intRange_filter_singleton (a b c : ℤ) (h1 : a ≤ c) (h2 : c < b) :
    (intRange a b).filter (fun i => decide (i = c)) = [c] := by
  have hb : b = a + ((b - a).toNat : ℕ) := by omega
  rw [hb]
  exact intRange_filter_len _ a c h1 (by omega)

/-! ### Claim C8 -/

/-- Claim C8: for a target line `1 ≤ L ≤ N` and width `w ≥ 0`, the
raw-file context operation returns entries for exactly the physical lines
`max(1, L-w) .. min(N, L+w)` inclusive, in order (each entry carrying the
rstripped text of its line), and exactly one entry — the one with line
number `L` — is flagged as the target. -/
theorem C8_theorem (lines : List String) (L w : ℤ)
    (h1 : 1 ≤ L) (h2 : L ≤ (lines.length : ℤ)) (h3 : 0 ≤ w) :
    (get_context lines L w).map ContextEntry.line_number
        = intRange (max 1 (L - w)) (min (lines.length : ℤ) (L + w) + 1)
    ∧ (∀ e ∈ get_context lines L w,
        e.content = pyRstrip (lines.getD (e.line_number - 1).toNat "")
        ∧ (e.is_target = true ↔ e.line_number = L))
    ∧ ((get_context lines L w).filter (fun e => e.is_target)).map
        ContextEntry.line_number = [L] := by
  unfold get_context
  refine ⟨?_, ?_, ?_⟩
  · rw [List.map_map]
    have hmap := intRange_map_add (max 0 (L - w - 1))
      (min (lines.length : ℤ) (L + w)) 1
    refine Eq.trans hmap ?_
    congr 1
    · omega
  · intro e he
    rcases List.mem_map.mp he with ⟨i, _, rfl⟩
    refine ⟨?_, ?_⟩
    · have hi1 : (i + 1 - 1 : ℤ) = i := by ring
      rw [hi1]
    · simp
  · rw [List.filter_map]
    rw [List.filter_congr (q := fun i => decide (i = L - 1))
      (fun i _ => by simp only [Function.comp]; rw [decide_eq_decide]; omega)]
    rw [intRange_filter_singleton _ _ (L - 1) (by omega) (by omega)]
    simp only [List.map_cons, List.map_nil]
    congr 1
    omega

/-- Claim C8, witness on a five-line file, target line 3, width 1. -/
theorem C8_witness :
    (get_context ["a", "b", "c", "d", "e"] 3 1).map ContextEntry.line_number
        = intRange (max 1 (3 - 1)) (min ((["a", "b", "c", "d", "e"] : List String).length : ℤ) (3 + 1) + 1)
    ∧ (∀ e ∈ get_context ["a", "b", "c", "d", "e"] 3 1,
        e.content = pyRstrip ((["a", "b", "c", "d", "e"] : List String).getD (e.line_number - 1).toNat "")
        ∧ (e.is_target = true ↔ e.line_number = 3))
    ∧ ((get_context ["a", "b", "c", "d", "e"] 3 1).filter (fun e => e.is_target)).map
        ContextEntry.line_number = [3] :=
  C8_theorem ["a", "b", "c", "d", "e"] 3 1 (by norm_num) (by norm_num) (by norm_num)

/-! ### Claim C10 -/

/-- Claim C10, counterexample: on an empty file (`N = 0`) with target
line 1 and width 1 the stated overlap condition `L - w - 1 < N` holds,
yet the context operation returns the empty sequence, not a non-empty
sequence of trailing lines. -/
theorem C10_counterexample :
    ((([] : List String).length : ℤ) < 1)
    ∧ ((1 : ℤ) - 1 - 1 < (([] : List String).length : ℤ))
    ∧ get_context ([] : List String) 1 1 = [] := by
  refine ⟨by norm_num, by norm_num, rfl⟩

/-- Claim C10, amended: when the file is non-empty, the target line `L`
exceeds the file's line count `N`, and the window still overlaps the file
(`L - w - 1 < N`), the context operation returns a non-empty sequence of
trailing lines — the lines `max(1, L-w) .. N` — with no entry flagged as
target. -/
theorem C10_theorem (lines : List String) (L w : ℤ)
    (h0 : 1 ≤ (lines.length : ℤ)) (hL : (lines.length : ℤ) < L)
    (hov : L - w - 1 < (lines.length : ℤ)) :
    get_context lines L w ≠ []
    ∧ (∀ e ∈ get_context lines L w, e.is_target = false)
    ∧ (get_context lines L w).map ContextEntry.line_number
        = intRange (max 1 (L - w)) ((lines.length : ℤ) + 1) := by
  unfold get_context
  refine ⟨?_, ?_, ?_⟩
  · apply List.ne_nil_of_length_pos
    rw [List.length_map, length_intRange]
    omega
  · intro e he
    rcases List.mem_map.mp he with ⟨i, hi, rfl⟩
    have hmem := mem_intRange.mp hi
    simp only [decide_eq_false_iff_not]
    omega
  · rw [List.map_map]
    have hmap := intRange_map_add (max 0 (L - w - 1))
      (min (lines.length : ℤ) (L + w)) 1
    refine Eq.trans hmap ?_
    congr 1
    · omega
    · omega

/-- Claim C10, amended, witness: a three-line file, target line 5,
width 3. -/
theorem C10_witness :
    get_context ["a", "b", "c"] 5 3 ≠ []
    ∧ (∀ e ∈ get_context ["a", "b", "c"] 5 3, e.is_target = false)
    ∧ (get_context ["a", "b", "c"] 5 3).map ContextEntry.line_number
        = intRange (max 1 (5 - 3)) (((["a", "b", "c"] : List String).length : ℤ) + 1) :=
  C10_theorem ["a", "b", "c"] 5 3 (by norm_num) (by norm_num) (by norm_num)

/-! ### Claim C7 -/

/-- Claim C7: assuming the embedding collaborator's batch contract (one
row per input, the row for an input computed by some per-item function
`g`), the index builder skips every message with empty or absent content,
embeds all surviving contents through the single batched call, and
returns a database whose metadata and embeddings are parallel arrays: one
metadata entry per embedding row, `metadata[i]` being the provenance of
the message embedded in row `i`. -/
theorem C7_theorem (embedB : List String → Except String (List Vec))
    (g : String → Vec) (mn : String) (msgs : List ChunkMsg)
    (hg : ∀ l : List String, embedB l = .ok (l.map g)) :
    ∃ db, create_vectors embedB mn msgs = .ok db
      ∧ db.embeddings = (survivingMessages msgs).map (fun m => g (getContent m))
      ∧ db.message_metadata = (survivingMessages msgs).map mkMetadataEntry
      ∧ db.message_metadata.length = db.embeddings.length
      ∧ (∀ i, db.message_metadata.getD i mdDefault
            = mkMetadataEntry ((survivingMessages msgs).getD i cmDefault))
      ∧ (∀ i, i < db.embeddings.length →
            db.embeddings.getD i []
              = g (getContent ((survivingMessages msgs).getD i cmDefault)))
      ∧ (∀ m ∈ msgs, getContent m = "" → m ∉ survivingMessages msgs) := by
  refine ⟨⟨mn, (survivingMessages msgs).map (fun m => g (getContent m)),
    message_metadata msgs⟩, ?_, rfl, rfl, ?_, ?_, ?_, ?_⟩
  · unfold create_vectors
    rcases hc : message_contents msgs with _ | ⟨c, cs⟩
    · have hsur : survivingMessages msgs = [] := by
        have := congrArg List.length hc
        simpa [message_contents] using List.eq_nil_of_length_eq_zero this
      simp [hsur, message_metadata]
    · have hmap : (message_contents msgs).map g
          = (survivingMessages msgs).map (fun m => g (getContent m)) := by
        simp [message_contents, List.map_map, Function.comp]
      simp only [hg]
      rw [← hc, hmap]
  · simp [message_metadata]
  · intro i
    simp only [message_metadata]
    rcases Nat.lt_or_ge i (survivingMessages msgs).length with hi | hi
    · rw [List.getD_eq_getElem _ _ (by simpa using hi), List.getD_eq_getElem _ _ hi]
      simp
    · rw [List.getD_eq_default _ _ (by simpa using hi), List.getD_eq_default _ _ hi]
      rfl
  · intro i hi
    rw [List.length_map] at hi
    rw [List.getD_eq_getElem _ _ (by simpa using hi), List.getD_eq_getElem _ _ hi]
    simp
  · intro m _ hempty hmem
    have := List.of_mem_filter hmem
    simp [hempty] at this

/-- Claim C7, witness: three messages, one with empty content and one
with absent content, embedded by a length-counting batch function. -/
theorem C7_witness :
    ∃ db, create_vectors (fun l => .ok (l.map (fun s => [(s.length : ℚ)])))
        "all-mpnet-base-v2"
        [⟨some 1, none, some "u", some "hi", some "f", none⟩,
         ⟨some 2, none, none, some "", some "f", none⟩,
         ⟨some 3, none, none, none, some "f", none⟩] = .ok db
      ∧ db.embeddings = (survivingMessages
          [⟨some 1, none, some "u", some "hi", some "f", none⟩,
           ⟨some 2, none, none, some "", some "f", none⟩,
           ⟨some 3, none, none, none, some "f", none⟩]).map
            (fun m => [((getContent m).length : ℚ)])
      ∧ db.message_metadata = (survivingMessages
          [⟨some 1, none, some "u", some "hi", some "f", none⟩,
           ⟨some 2, none, none, some "", some "f", none⟩,
           ⟨some 3, none, none, none, some "f", none⟩]).map mkMetadataEntry
      ∧ db.message_metadata.length = db.embeddings.length
      ∧ (∀ i, db.message_metadata.getD i mdDefault
            = mkMetadataEntry ((survivingMessages
                [⟨some 1, none, some "u", some "hi", some "f", none⟩,
                 ⟨some 2, none, none, some "", some "f", none⟩,
                 ⟨some 3, none, none, none, some "f", none⟩]).getD i cmDefault))
      ∧ (∀ i, i < db.embeddings.length →
            db.embeddings.getD i []
              = [((getContent ((survivingMessages
                  [⟨some 1, none, some "u", some "hi", some "f", none⟩,
                   ⟨some 2, none, none, some "", some "f", none⟩,
                   ⟨some 3, none, none, none, some "f", none⟩]).getD i cmDefault)).length : ℚ)])
      ∧ (∀ m ∈ [⟨some 1, none, some "u", some "hi", some "f", none⟩,
                 ⟨some 2, none, none, some "", some "f", none⟩,
                 (⟨some 3, none, none, none, some "f", none⟩ : ChunkMsg)],
            getContent m = "" → m ∉ survivingMessages
              [⟨some 1, none, some "u", some "hi", some "f", none⟩,
               ⟨some 2, none, none, some "", some "f", none⟩,
               ⟨some 3, none, none, none, some "f", none⟩]) :=
  C7_theorem (fun l => .ok (l.map (fun s => [(s.length : ℚ)])))
    (fun s => [(s.length : ℚ)]) "all-mpnet-base-v2"
    [⟨some 1, none, some "u", some "hi", some "f", none⟩,
     ⟨some 2, none, none, some "", some "f", none⟩,
     ⟨some 3, none, none, none, some "f", none⟩] (fun _ => rfl)

/-! ### Claim C9 -/

/-- Claim C9: if the embedding backend fails on the batched call during
an index build, `create_vectors` fails with that same error — the failure
is surfaced to the caller — and no database file is persisted (the
`pickle.dump` lies after the `encode` call and is never reached). -/
theorem C9_theorem (embedB : List String → Except String (List Vec))
    (mn : String) (msgs : List ChunkMsg) (e : String)
    (hne : message_contents msgs ≠ [])
    (hfail : embedB (message_contents msgs) = .error e) :
    create_vectors embedB mn msgs = .error e
    ∧ persisted_databases embedB mn msgs = [] := by
  have hcv : create_vectors embedB mn msgs = .error e := by
    unfold create_vectors
    rcases hc : message_contents msgs with _ | ⟨c, cs⟩
    · exact absurd hc hne
    · rw [hc] at hfail
      simp only [hfail]
  refine ⟨hcv, ?_⟩
  unfold persisted_databases
  rw [hcv]

/-- Claim C9, witness: a backend that raises on every batch. -/
theorem C9_witness :
    create_vectors (fun _ => .error "GPU out of memory") "all-mpnet-base-v2"
        [⟨some 1, none, some "u", some "hi", some "f", none⟩]
      = .error "GPU out of memory"
    ∧ persisted_databases (fun _ => .error "GPU out of memory") "all-mpnet-base-v2"
        [⟨some 1, none, some "u", some "hi", some "f", none⟩] = [] :=
  C9_theorem (fun _ => .error "GPU out of memory") "all-mpnet-base-v2"
    [⟨some 1, none, some "u", some "hi", some "f", none⟩] "GPU out of memory"
    (by decide) rfl

/-! ### Calendar bounds: every valid datetime sorts below the
`datetime.max` sentinel -/

theorem cum_month_le (leap : Bool) (m : ℕ) (h1 : 1 ≤ m) (h2 : m ≤ 12) :
    cumDays leap m + monthLen leap m ≤ 365 + (if leap = true then 1 else 0) := by
  interval_cases m <;> cases leap <;> decide

theorem toOrdinal_le_of_valid (d : DateTime) (h : d.Valid) :
    d.toOrdinal ≤ 3652058 := by
  obtain ⟨hy1, hy2, hm1, hm2, hd1, hd2, _, _, _⟩ := h
  have hcm := cum_month_le (isLeapYear d.year) d.month hm1 hm2
  unfold daysInMonth at hd2
  unfold DateTime.toOrdinal
  rcases Nat.lt_or_ge d.year 9999 with hy | hy
  · have hb : (if isLeapYear d.year = true then 1 else 0) ≤ 1 := by split <;> omega
    omega
  · have hy9 : d.year = 9999 := le_antisymm hy2 hy
    have hleap : isLeapYear 9999 = false := by decide
    rw [hy9] at hcm hd2 ⊢
    rw [hleap] at hcm hd2 ⊢
    simp only [Bool.false_eq_true, if_false] at hcm
    omega

theorem toSec_le_of_valid (d : DateTime) (h : d.Valid) :
    d.toSec ≤ dtMax.toSec := by
  have hord := toOrdinal_le_of_valid d h
  obtain ⟨_, _, _, _, _, _, hh, hmi, hs⟩ := h
  have hmax : dtMax.toOrdinal * 86400 + dtMax.hour * 3600 + dtMax.minute * 60 + dtMax.second
      = 3652058 * 86400 + 23 * 3600 + 59 * 60 + 59 := by decide
  unfold DateTime.toSec
  omega

theorem tsKey_some_lt (d : DateTime) (h : d.Valid) :
    tsKey (some d) < tsKey none := by
  have := toSec_le_of_valid d h
  simp only [tsKey]
  omega

/-! ### Chunker structure lemmas -/

/-- Concatenating the groups emitted by the grouping loop gives back the
current group followed by the remaining messages. -/
theorem groupGo_messages (src : String) (w : ℕ) :
    ∀ (rest cur : List Message) (curTs : Option DateTime),
      ((groupGo src w rest cur curTs).map Segment.messages).flatten = cur ++ rest := by
  intro rest
  induction rest with
  | nil => intro cur curTs; simp [groupGo]
  | cons m rest ih =>
    intro cur curTs
    cases hm : m.timestamp with
    | none => simp [groupGo, hm, ih]
    | some t =>
      cases curTs with
      | none => simp [groupGo, hm, ih]
      | some ct =>
        cases hd : timeDiffOk t ct w
        · simp [groupGo, hm, hd, ih]
        · simp [groupGo, hm, hd, ih]

/-! ### Claim C4 -/

/-- Claim C4: concatenating `messages` across the chunker's output
Segments, in order, yields exactly the stable sort of the input by
`(timestamp, line_number)` — a permutation of the input (each message
exactly once, no duplication, no loss), sorted so that absent timestamps
come after every (valid) timestamped message and ties are broken by
ascending line number. -/
theorem C4_theorem (msgs : List Message) (w : ℕ)
    (hv : ∀ m ∈ msgs, ∀ d, m.timestamp = some d → d.Valid) :
    ((group_messages_by_time msgs w).map Segment.messages).flatten = sortMsgs msgs
    ∧ (sortMsgs msgs).Perm msgs
    ∧ (sortMsgs msgs).Pairwise msgLe
    ∧ (sortMsgs msgs).Pairwise (fun a b => a.timestamp = none → b.timestamp = none) := by
  have hperm : (sortMsgs msgs).Perm msgs := List.perm_insertionSort _ _
  have hsorted : (sortMsgs msgs).Pairwise msgLe := List.sorted_insertionSort _ _
  refine ⟨?_, hperm, hsorted, ?_⟩
  · unfold group_messages_by_time
    rcases hs : sortMsgs msgs with _ | ⟨m, rest⟩
    · simp
    · rw [groupGo_messages]
      rfl
  · refine List.Pairwise.imp_of_mem ?_ hsorted
    intro a b _ hb hle hanone
    rcases hb2 : b.timestamp with _ | d
    · rfl
    · exfalso
      have hbm : b ∈ msgs := hperm.subset hb
      have hlt := tsKey_some_lt d (hv b hbm d hb2)
      unfold msgLe pairLexLe sortKey at hle
      rw [hanone, hb2] at hle
      simp only [] at hle
      omega

/-- Claim C4, witness on a three-message input with valid timestamps and
one absent timestamp. -/
theorem C4_witness :
    ((group_messages_by_time
        [⟨1, some ⟨2024, 1, 1, 0, 3, 0⟩, some "a", "m1", "f.txt"⟩,
         ⟨2, none, none, "x", "f.txt"⟩,
         ⟨3, some ⟨2024, 1, 1, 0, 0, 0⟩, some "b", "m2", "f.txt"⟩] 5).map
        Segment.messages).flatten
      = sortMsgs
        [⟨1, some ⟨2024, 1, 1, 0, 3, 0⟩, some "a", "m1", "f.txt"⟩,
         ⟨2, none, none, "x", "f.txt"⟩,
         ⟨3, some ⟨2024, 1, 1, 0, 0, 0⟩, some "b", "m2", "f.txt"⟩]
    ∧ (sortMsgs
        [⟨1, some ⟨2024, 1, 1, 0, 3, 0⟩, some "a", "m1", "f.txt"⟩,
         ⟨2, none, none, "x", "f.txt"⟩,
         ⟨3, some ⟨2024, 1, 1, 0, 0, 0⟩, some "b", "m2", "f.txt"⟩]).Perm
        [⟨1, some ⟨2024, 1, 1, 0, 3, 0⟩, some "a", "m1", "f.txt"⟩,
         ⟨2, none, none, "x", "f.txt"⟩,
         ⟨3, some ⟨2024, 1, 1, 0, 0, 0⟩, some "b", "m2", "f.txt"⟩]
    ∧ (sortMsgs
        [⟨1, some ⟨2024, 1, 1, 0, 3, 0⟩, some "a", "m1", "f.txt"⟩,
         ⟨2, none, none, "x", "f.txt"⟩,
         ⟨3, some ⟨2024, 1, 1, 0, 0, 0⟩, some "b", "m2", "f.txt"⟩]).Pairwise msgLe
    ∧ (sortMsgs
        [⟨1, some ⟨2024, 1, 1, 0, 3, 0⟩, some "a", "m1", "f.txt"⟩,
         ⟨2, none, none, "x", "f.txt"⟩,
         ⟨3, some ⟨2024, 1, 1, 0, 0, 0⟩, some "b", "m2", "f.txt"⟩]).Pairwise
        (fun a b => a.timestamp = none → b.timestamp = none) :=
  C4_theorem
    [⟨1, some ⟨2024, 1, 1, 0, 3, 0⟩, some "a", "m1", "f.txt"⟩,
     ⟨2, none, none, "x", "f.txt"⟩,
     ⟨3, some ⟨2024, 1, 1, 0, 0, 0⟩, some "b", "m2", "f.txt"⟩] 5 (by decide)

/-! ### Claim C5 helper lemmas -/

/-- The grouping loop's first emitted group opens with the head of the
current group and carries the current anchor timestamp. -/
theorem groupGo_first (src : String) (w : ℕ) :
    ∀ (rest cur : List Message) (curTs : Option DateTime), cur ≠ [] →
      ∃ seg segs, groupGo src w rest cur curTs = seg :: segs
        ∧ seg.messages.head? = cur.head? ∧ seg.timestamp = curTs := by
  intro rest
  induction rest with
  | nil =>
    intro cur curTs _
    exact ⟨⟨curTs, cur, src⟩, [], by simp [groupGo], rfl, rfl⟩
  | cons m rest ih =>
    intro cur curTs hcur
    cases hm : m.timestamp with
    | none =>
      exact ⟨⟨curTs, cur, src⟩, groupGo src w rest [m] none,
        by simp [groupGo, hm], rfl, rfl⟩
    | some t =>
      cases curTs with
      | none =>
        exact ⟨⟨none, cur, src⟩, groupGo src w rest [m] (some t),
          by simp [groupGo, hm], rfl, rfl⟩
      | some ct =>
        cases hd : timeDiffOk t ct w
        · exact ⟨⟨some ct, cur, src⟩, groupGo src w rest [m] (some t),
            by simp [groupGo, hm, hd], rfl, rfl⟩
        · obtain ⟨seg, segs, heq, hhead, hts⟩ := ih (cur ++ [m]) (some ct) (by simp)
          refine ⟨seg, segs, ?_, ?_, hts⟩
          · simp [groupGo, hm, hd, heq]
          · rw [hhead]
            cases cur with
            | nil => exact absurd rfl hcur
            | cons c cs => rfl

/-- Invariant of the grouping loop: every emitted group opens with the
message whose timestamp is the group's anchor, and every member of a
timestamped-anchor group is within the window of that anchor. -/
theorem groupGo_inv (src : String) (w : ℕ) :
    ∀ (rest cur : List Message) (curTs : Option DateTime) (m0 : Message)
      (tl : List Message),
      cur = m0 :: tl → curTs = m0.timestamp →
      (∀ m ∈ cur, ∀ t s, curTs = some t → m.timestamp = some s →
        ((s.toSec : ℤ) - (t.toSec : ℤ)).natAbs ≤ 60 * w) →
      ∀ seg ∈ groupGo src w rest cur curTs,
        (∃ mh th, seg.messages = mh :: th ∧ seg.timestamp = mh.timestamp)
        ∧ (∀ m ∈ seg.messages, ∀ t s, seg.timestamp = some t →
            m.timestamp = some s →
            ((s.toSec : ℤ) - (t.toSec : ℤ)).natAbs ≤ 60 * w) := by
  intro rest
  induction rest with
  | nil =>
    intro cur curTs m0 tl hcur hts hwin seg hseg
    simp only [groupGo, List.mem_singleton] at hseg
    subst hseg
    exact ⟨⟨m0, tl, hcur, by rw [hts]⟩, hwin⟩
  | cons m rest ih =>
    intro cur curTs m0 tl hcur hts hwin seg hseg
    cases hm : m.timestamp with
    | none =>
      simp only [groupGo, hm, List.mem_cons] at hseg
      rcases hseg with hseg | hseg
      · subst hseg
        exact ⟨⟨m0, tl, hcur, by rw [hts]⟩, hwin⟩
      · refine ih [m] none m [] rfl hm.symm ?_ seg hseg
        intro x _ t s ht _
        cases ht
    | some t =>
      cases curTs with
      | none =>
        simp only [groupGo, hm, List.mem_cons] at hseg
        rcases hseg with hseg | hseg
        · subst hseg
          exact ⟨⟨m0, tl, hcur, by rw [hts]⟩, hwin⟩
        · refine ih [m] (some t) m [] rfl hm.symm ?_ seg hseg
          intro x hx t' s ht' hs
          simp only [List.mem_singleton] at hx
          subst hx
          rw [hm] at hs
          cases ht'
          cases hs
          simp
      | some ct =>
        cases hd : timeDiffOk t ct w
        · simp only [groupGo, hm, hd, Bool.false_eq_true, if_false,
            List.mem_cons] at hseg
          rcases hseg with hseg | hseg
          · subst hseg
            exact ⟨⟨m0, tl, hcur, by rw [hts]⟩, hwin⟩
          · refine ih [m] (some t) m [] rfl hm.symm ?_ seg hseg
            intro x hx t' s ht' hs
            simp only [List.mem_singleton] at hx
            subst hx
            rw [hm] at hs
            cases ht'
            cases hs
            simp
        · simp only [groupGo, hm, hd, if_true] at hseg
          refine ih (cur ++ [m]) (some ct) m0 (tl ++ [m])
            (by rw [hcur]; rfl) hts ?_ seg ?_
          · intro x hx t' s ht' hs
            rcases List.mem_append.mp hx with hx | hx
            · exact hwin x hx t' s ht' hs
            · simp only [List.mem_singleton] at hx
              subst hx
              rw [hm] at hs
              cases ht'
              cases hs
              simp only [timeDiffOk, decide_eq_true_eq] at hd
              exact hd
          · exact hseg


/-- Consecutive groups emitted by the grouping loop satisfy
`newGroupRel`: a timestamped message never opens a new group while still
within the window of a timestamped previous anchor. -/
theorem groupGo_chain (src : String) (w : ℕ) :
    ∀ (rest cur : List Message) (curTs : Option DateTime),
      List.Chain' (newGroupRel w) (groupGo src w rest cur curTs) := by
  intro rest
  induction rest with
  | nil => intro cur curTs; simp [groupGo]
  | cons m rest ih =>
    intro cur curTs
    cases hm : m.timestamp with
    | none =>
      simp only [groupGo, hm]
      rw [List.chain'_cons']
      refine ⟨?_, ih [m] none⟩
      intro y hy
      obtain ⟨seg, segs, heq, hhead, hts⟩ := groupGo_first src w rest [m] none (by simp)
      rw [heq] at hy
      simp only [List.head?_cons, Option.mem_def, Option.some.injEq] at hy
      subst hy
      intro t2 _ mh hmh u hu
      rw [hhead] at hmh
      simp only [List.head?_cons, Option.some.injEq] at hmh
      subst hmh
      rw [hm] at hu
      cases hu
    | some t =>
      cases curTs with
      | none =>
        simp only [groupGo, hm]
        rw [List.chain'_cons']
        refine ⟨?_, ih [m] (some t)⟩
        intro y _
        intro t2 ht2 _ _ _ _
        cases ht2
      | some ct =>
        cases hd : timeDiffOk t ct w
        · simp only [groupGo, hm, hd, Bool.false_eq_true, if_false]
          rw [List.chain'_cons']
          refine ⟨?_, ih [m] (some t)⟩
          intro y hy
          obtain ⟨seg, segs, heq, hhead, hts⟩ :=
            groupGo_first src w rest [m] (some t) (by simp)
          rw [heq] at hy
          simp only [List.head?_cons, Option.mem_def, Option.some.injEq] at hy
          subst hy
          intro t2 ht2 mh hmh u hu
          rw [hhead] at hmh
          simp only [List.head?_cons, Option.some.injEq] at hmh
          subst hmh
          rw [hm] at hu
          cases ht2
          cases hu
          have hd2 : ¬(((t.toSec : ℤ) - (ct.toSec : ℤ)).natAbs ≤ 60 * w) := by
            simpa [timeDiffOk] using hd
          omega
        · simp only [groupGo, hm, hd, if_true]
          exact ih (cur ++ [m]) (some ct)

/-! ### Claim C5 -/

/-- Claim C5: every group emitted by the chunker opens with the message
whose timestamp is the group's anchor (the anchor never changes within a
group); in a group with a timestamped anchor, every timestamped member is
within the window of that anchor; and across consecutive groups, a
timestamped message opening the next group while the previous anchor is
timestamped is strictly outside the window — i.e. a message exceeding the
window starts a new group. -/
theorem C5_theorem (msgs : List Message) (w : ℕ) :
    (∀ seg ∈ group_messages_by_time msgs w,
      (∃ mh th, seg.messages = mh :: th ∧ seg.timestamp = mh.timestamp)
      ∧ (∀ m ∈ seg.messages, ∀ t s, seg.timestamp = some t →
          m.timestamp = some s →
          ((s.toSec : ℤ) - (t.toSec : ℤ)).natAbs ≤ 60 * w))
    ∧ List.Chain' (newGroupRel w) (group_messages_by_time msgs w) := by
  unfold group_messages_by_time
  rcases hs : sortMsgs msgs with _ | ⟨m, rest⟩
  · exact ⟨fun seg hseg => absurd hseg (List.not_mem_nil seg), List.chain'_nil⟩
  · refine ⟨?_, groupGo_chain m.source_file w rest [m] m.timestamp⟩
    intro seg hseg
    refine groupGo_inv m.source_file w rest [m] m.timestamp m [] rfl rfl ?_ seg hseg
    intro x hx t s ht hs2
    simp only [List.mem_singleton] at hx
    subst hx
    rw [ht] at hs2
    cases hs2
    simp

/-- Claim C5, witness: four messages grouping into an in-window pair, an
out-of-window singleton and an untimestamped singleton. -/
theorem C5_witness :
    (∀ seg ∈ group_messages_by_time
        [⟨1, some ⟨2024, 1, 1, 0, 0, 0⟩, some "a", "m1", "f.txt"⟩,
         ⟨2, some ⟨2024, 1, 1, 0, 3, 0⟩, some "b", "m2", "f.txt"⟩,
         ⟨3, some ⟨2024, 1, 1, 0, 10, 0⟩, some "c", "m3", "f.txt"⟩,
         ⟨4, none, none, "x", "f.txt"⟩] 5,
      (∃ mh th, seg.messages = mh :: th ∧ seg.timestamp = mh.timestamp)
      ∧ (∀ m ∈ seg.messages, ∀ t s, seg.timestamp = some t →
          m.timestamp = some s →
          ((s.toSec : ℤ) - (t.toSec : ℤ)).natAbs ≤ 60 * 5))
    ∧ List.Chain' (newGroupRel 5) (group_messages_by_time
        [⟨1, some ⟨2024, 1, 1, 0, 0, 0⟩, some "a", "m1", "f.txt"⟩,
         ⟨2, some ⟨2024, 1, 1, 0, 3, 0⟩, some "b", "m2", "f.txt"⟩,
         ⟨3, some ⟨2024, 1, 1, 0, 10, 0⟩, some "c", "m3", "f.txt"⟩,
         ⟨4, none, none, "x", "f.txt"⟩] 5) :=
  C5_theorem
    [⟨1, some ⟨2024, 1, 1, 0, 0, 0⟩, some "a", "m1", "f.txt"⟩,
     ⟨2, some ⟨2024, 1, 1, 0, 3, 0⟩, some "b", "m2", "f.txt"⟩,
     ⟨3, some ⟨2024, 1, 1, 0, 10, 0⟩, some "c", "m3", "f.txt"⟩,
     ⟨4, none, none, "x", "f.txt"⟩] 5

end SearchGuy
